import Mathlib

/-!
Shallow embedding of the databricks-youtube-etl-pipeline ingestion code
(src/yt_ingest/io_ndjson.py, http_client.py, youtube_api.py, pipeline.py,
rate_limiter.py, and the legacy monolith src/main.py), together with
theorems settling the specification claims about it.

Conventions of the embedding:
- bytes are modelled as natural numbers; one serialized NDJSON line
  (json.dumps(obj) + "\n", UTF-8 encoded) is a list of bytes;
- gzip compression is treated as an injective encoding: a sealed partition
  effect records the uncompressed buffer content that was compressed, so
  "decompressing" a partition is reading that content back;
- the filesystem is modelled by an ordered log of effects (directory
  creation, atomic partition writes);
- the HTTP server is modelled by the sequence of outcomes the network
  would deliver to successive request attempts / successive requests.
-/

namespace YtIngest

/-- A minimal JSON value type, enough to talk about the bodies returned by
`response.json()` and about the empty JSON object `{}`. -/
inductive Json where
  | null : Json
  | bool : Bool → Json
  | num : Int → Json
  | str : String → Json
  | arr : List Json → Json
  | obj : List (String × Json) → Json

/-! ### src/yt_ingest/config.py and the config block of src/main.py -/

/-- Source: `MAX_RETRIES = 5` (identical in src/yt_ingest/config.py and
src/main.py). -/
def MAX_RETRIES : Nat := 5

/-- Source: `BATCH_SIZE_IDS = 50` (identical in src/yt_ingest/config.py and
src/main.py). -/
def BATCH_SIZE_IDS : Nat := 50

/-! ### src/yt_ingest/http_client.py and src/main.py http_get_json

One loop attempt observes one `HttpOutcome`: either a response with a
status code and a decoded JSON body, or a transport-level exception
(`aiohttp.ClientError` / `asyncio.TimeoutError`).  Sleeps are irrelevant to
the returned value and are not modelled. -/

inductive HttpOutcome where
  | response (status : Nat) (body : Json)
  | transportError

/-- The possible raised errors of the two http_get_json implementations. -/
inductive HttpFailure where
  | transport
  | httpStatus (code : Nat)
  | runtimeUnexpected
  | valueErrorBadConfig
  deriving DecidableEq

/-- Source: `if response.status in (429, 500, 502, 503, 504)`. -/
def retryableStatus (s : Nat) : Bool :=
  s == 429 || s == 500 || s == 502 || s == 503 || s == 504

/-- The retry loop shared by both http_get_json implementations, run over
the list of outcomes of the `MAX_RETRIES` successive attempts (one list
element per loop iteration).  `raise_for_status()` raises
`ClientResponseError` (a subclass of `aiohttp.ClientError`) for statuses
≥ 400, so a non-retryable error status is caught by the `except` clause:
re-raised on the last attempt, retried otherwise — exactly like a
transport exception.  `exhaust` is what the code after the loop produces
(the two implementations differ only there). -/
def httpLoop (exhaust : Except HttpFailure Json) :
    List HttpOutcome → Except HttpFailure Json
  | [] => exhaust
  | o :: rest =>
    match o with
    | .response st body =>
      if retryableStatus st then
        httpLoop exhaust rest
      else if 400 ≤ st then
        if rest.isEmpty then .error (.httpStatus st) else httpLoop exhaust rest
      else .ok body
    | .transportError =>
      if rest.isEmpty then .error .transport else httpLoop exhaust rest

/-- src/yt_ingest/http_client.py http_get_json: guards `MAX_RETRIES <= 0`
with a ValueError, and after the loop raises
`RuntimeError("Falha inesperada ao executar requisição HTTP.")`.
`attempts i` is the outcome the network delivers to attempt `i`. -/
def http_get_json (attempts : Nat → HttpOutcome) : Except HttpFailure Json :=
  if MAX_RETRIES ≤ 0 then .error .valueErrorBadConfig
  else httpLoop (.error .runtimeUnexpected) ((List.range MAX_RETRIES).map attempts)

/-- src/main.py http_get_json (legacy monolith): no guard, and after the
loop `return {}`. -/
def http_get_json_legacy (attempts : Nat → HttpOutcome) : Except HttpFailure Json :=
  httpLoop (.ok (Json.obj [])) ((List.range MAX_RETRIES).map attempts)

/-! ### src/yt_ingest/io_ndjson.py NDJSONRotatingWriter -/

/-- The bytes of one serialized newline-terminated NDJSON line. -/
abbrev Line := List Nat

/-- Filesystem effects performed by the writer, in order.  `mkdir dir`
is `os.makedirs(dir, exist_ok=True)` (idempotent, tolerates
already-exists); `partWrite idx content` is
`atomic_write_bytes(out_dir/part-{idx:05d}.ndjson.gz, gzip.compress(b))`,
recorded with the uncompressed buffer content `content` whose
concatenation is the byte string `b` that was compressed. -/
inductive FsEffect where
  | mkdir (dir : String)
  | partWrite (idx : Nat) (content : List Line)
  deriving DecidableEq

/-- `self.buf.tell()`: the byte size of the in-memory buffer, which holds
the concatenation of the lines appended since the last rotation. -/
def bufBytes (buf : List Line) : Nat := (buf.map List.length).sum

/-- The state of an NDJSONRotatingWriter, plus the log of filesystem
effects it has performed. -/
structure Writer where
  out_dir : String
  target_bytes : Int
  buf : List Line
  file_index : Nat
  count : Nat
  effects : List FsEffect
  deriving DecidableEq

/-- `NDJSONRotatingWriter.__init__`: stores the directory, calls
`ensure_dir(out_dir)` (an effect performed during construction), sets
`target_bytes = part_size_mb * 1024 * 1024`, an empty buffer, index 0,
count 0. -/
def Writer.init (out_dir : String) (part_size_mb : Int) : Writer :=
  { out_dir := out_dir
    target_bytes := part_size_mb * 1024 * 1024
    buf := []
    file_index := 0
    count := 0
    effects := [.mkdir out_dir] }

/-- `NDJSONRotatingWriter._rotate`: no-op when `buf.tell() == 0`;
otherwise atomically writes the gzip of the buffer to
`part-{file_index:05d}.ndjson.gz`, increments the index and resets the
buffer. -/
def Writer.rotate (s : Writer) : Writer :=
  if bufBytes s.buf = 0 then s
  else
    { s with
      effects := s.effects ++ [.partWrite s.file_index s.buf]
      file_index := s.file_index + 1
      buf := [] }

/-- `NDJSONRotatingWriter.write_line`: append the serialized line to the
buffer, increment the count, and rotate when
`buf.tell() >= target_bytes`. -/
def Writer.write_line (s : Writer) (line : Line) : Writer :=
  let s1 : Writer := { s with buf := s.buf ++ [line], count := s.count + 1 }
  if (bufBytes s1.buf : Int) ≥ s1.target_bytes then s1.rotate else s1

/-- `NDJSONRotatingWriter.close`: a final rotation. -/
def Writer.close (s : Writer) : Writer := s.rotate

/-- Process a whole sequence of appended records. -/
def Writer.writeAll (s : Writer) (ls : List Line) : Writer :=
  ls.foldl Writer.write_line s

/-- The sealed partitions recorded in an effect log: `(index, content)`
pairs in the order the files were written. -/
def partWrites (effs : List FsEffect) : List (Nat × List Line) :=
  effs.filterMap fun e =>
    match e with
    | .partWrite i c => some (i, c)
    | .mkdir _ => none

/-- Whether an effect is a directory creation. -/
def FsEffect.isMkdir : FsEffect → Bool
  | .mkdir _ => true
  | .partWrite _ _ => false

/-! ### src/yt_ingest/youtube_api.py search_list_videos_of_channel -/

/-- One element of a search page's `items` array, reduced to the two
fields the code reads: `it.get("id", {}).get("kind")` and
`it.get("id", {}).get("videoId")` (absent fields are `none`). -/
structure SearchItem where
  kind : Option String
  videoId : Option String
  deriving DecidableEq

/-- One response of the paginated `search.list` endpoint: its `items`
array and its optional `nextPageToken`. -/
structure SearchPage where
  items : List SearchItem
  nextPageToken : Option String
  deriving DecidableEq

/-- Python truthiness of an optional string (`if vid:` /
`if not page_token:`): `None` and the empty string are falsy. -/
def truthy : Option String → Bool
  | some s => s != ""
  | none => false

/-- The ids one page contributes: items whose `id.kind` is
`"youtube#video"` and whose `id.videoId` is truthy, in item order. -/
def pageVideoIds (items : List SearchItem) : List String :=
  items.filterMap fun it =>
    if it.kind = some "youtube#video" then
      match it.videoId with
      | some v => if v != "" then some v else none
      | none => none
    else none

/-- The `while len(video_ids) < max_videos` collection loop of
search_list_videos_of_channel.  `pages` is the sequence of responses the
server delivers to successive requests; each consumed page is one
`http_get_json` call.  Returns the collected ids and the number of
requests issued. -/
def searchLoop (max_videos : Int) :
    List SearchPage → List String → List String × Nat
  | [], acc => (acc, 0)
  | p :: rest, acc =>
    if (acc.length : Int) < max_videos then
      let acc2 := acc ++ pageVideoIds p.items
      if truthy p.nextPageToken then
        let r := searchLoop max_videos rest acc2
        (r.1, r.2 + 1)
      else (acc2, 1)
    else (acc, 0)

/-- src/yt_ingest/youtube_api.py search_list_videos_of_channel (the loop
starts with an empty `video_ids` accumulator and no page token). -/
def search_list_videos_of_channel (max_videos : Int) (pages : List SearchPage) :
    List String × Nat :=
  searchLoop max_videos pages []

/-! ### src/yt_ingest/youtube_api.py videos_list_details -/

/-- The consecutive slices `video_ids[i : i + n]` for
`i in range(0, len(video_ids), n)`. -/
def chunksOf (n : Nat) : List α → List (List α)
  | [] => []
  | x :: xs => (x :: xs.take (n - 1)) :: chunksOf n (xs.drop (n - 1))
termination_by l => l.length
decreasing_by simp [List.length_drop]; omega

/-- src/yt_ingest/youtube_api.py videos_list_details: returns `[]` with no
request for an empty id list; otherwise issues one GET per
`BATCH_SIZE_IDS`-sized chunk with the chunk's ids comma-joined in the
`id` parameter, and concatenates the `items` arrays in chunk order.
`server` maps a requested chunk to the `items` of its response.  The
first component is the list of comma-joined `id` parameters of the
requests issued, in order; the second is the accumulated `out`. -/
def videos_list_details (server : List String → List α) (video_ids : List String) :
    List String × List α :=
  if video_ids = [] then ([], [])
  else
    ((chunksOf BATCH_SIZE_IDS video_ids).map (fun c => String.intercalate "," c),
     (chunksOf BATCH_SIZE_IDS video_ids).flatMap server)

/-! ### src/yt_ingest/pipeline.py _ingest_single_channel, steps 3 and 4

After `videos_list_details` returns, the pipeline writes one
`youtube_video` record per returned detail item (keyed by the item's own
`id`), collects those ids in `returned`, and then writes one `not_found`
record per requested id absent from `returned`.  Detail items are
represented here by their extracted `id` field. -/

/-- The `_type` tags of the records the audit step writes to the video
stream. -/
inductive VideoRecType where
  | youtube_video
  | not_found
  deriving DecidableEq

/-- The `( _type, videoId)` projections of the records written to the
video stream by steps 3–4 of `_ingest_single_channel`, in write order:
first one `youtube_video` record per detail item, then one `not_found`
record per requested id not in the returned set. -/
def videoStream (video_ids : List String) (detail_ids : List String) :
    List (VideoRecType × String) :=
  detail_ids.map (fun v => (VideoRecType.youtube_video, v)) ++
    (video_ids.filter (fun v => !detail_ids.contains v)).map
      (fun v => (VideoRecType.not_found, v))

/-! ### src/yt_ingest/rate_limiter.py RateLimiter -/

/-- The (timing-free) state of the RateLimiter: the stored budget
`self.rps` and the number of permits of the current
`asyncio.Semaphore`.  The `last_reset` wall-clock timestamp is not
modelled; it does not affect these fields at construction. -/
structure RateLimiter where
  rps : Int
  sem_permits : Int
  deriving DecidableEq

/-- `RateLimiter.__init__`: `self.rps = max(1, rps)` and
`self.sem = asyncio.Semaphore(self.rps)`. -/
def RateLimiter.init (rps : Int) : RateLimiter :=
  { rps := max 1 rps, sem_permits := max 1 rps }

/-- The window reset inside `RateLimiter.acquire`:
`self.sem = asyncio.Semaphore(self.rps)` — the pool is re-created with
the stored budget. -/
def RateLimiter.resetPool (l : RateLimiter) : RateLimiter :=
  { l with sem_permits := l.rps }

/-! ### Helper lemmas about the writer -/

theorem partWrites_append (e1 e2 : List FsEffect) :
    partWrites (e1 ++ e2) = partWrites e1 ++ partWrites e2 :=
  List.filterMap_append e1 e2 _

theorem bufBytes_append (b1 b2 : List Line) :
    bufBytes (b1 ++ b2) = bufBytes b1 + bufBytes b2 := by
  simp [bufBytes]

theorem partWrites_single (i : Nat) (c : List Line) :
    partWrites [FsEffect.partWrite i c] = [(i, c)] := rfl

/-- The durability invariant of the rotating writer relative to the lines
written so far: partition indices in the effect log are `0, 1, …` in
write order, and the partition contents followed by the in-memory buffer
hold exactly the appended lines in order. -/
def WriterInv (s : Writer) (written : List Line) : Prop :=
  (partWrites s.effects).map Prod.fst = List.range s.file_index ∧
  ((partWrites s.effects).map Prod.snd).flatten ++ s.buf = written

theorem writerInv_rotate (s : Writer) (w : List Line) (h : WriterInv s w) :
    WriterInv s.rotate w := by
  obtain ⟨h1, h2⟩ := h
  unfold Writer.rotate
  split
  · exact ⟨h1, h2⟩
  · refine ⟨?_, ?_⟩
    · simp [partWrites_append, partWrites_single, h1, List.range_succ]
    · simp only [partWrites_append, partWrites_single, List.map_append,
        List.flatten_append]
      simpa using h2

theorem writerInv_write_line (s : Writer) (w : List Line) (l : Line)
    (h : WriterInv s w) : WriterInv (s.write_line l) (w ++ [l]) := by
  obtain ⟨h1, h2⟩ := h
  have hmid : WriterInv { s with buf := s.buf ++ [l], count := s.count + 1 }
      (w ++ [l]) := by
    refine ⟨h1, ?_⟩
    simpa [← List.append_assoc] using congrArg (fun t => t ++ [l]) h2
  unfold Writer.write_line
  dsimp only
  split
  · exact writerInv_rotate _ _ hmid
  · exact hmid

theorem writerInv_writeAll (ls : List Line) :
    ∀ (s : Writer) (w : List Line), WriterInv s w →
      WriterInv (s.writeAll ls) (w ++ ls) := by
  induction ls with
  | nil => intro s w h; simpa [Writer.writeAll] using h
  | cons a tl ih =>
    intro s w h
    have h1 := writerInv_write_line s w a h
    have h2 := ih (s.write_line a) (w ++ [a]) h1
    simpa [Writer.writeAll] using h2

theorem writerInv_init (d : String) (p : Int) :
    WriterInv (Writer.init d p) [] := by
  constructor <;> rfl

/-- All lines in the buffer are nonempty (true of real NDJSON lines,
which end in a newline byte). -/
def BufOk (s : Writer) : Prop := ∀ l ∈ s.buf, l ≠ []

theorem bufOk_rotate (s : Writer) (h : BufOk s) : BufOk s.rotate := by
  unfold Writer.rotate
  split
  · exact h
  · intro l hl; exact absurd hl (by simp)

theorem bufOk_write_line (s : Writer) (l : Line) (h : BufOk s) (hl : l ≠ []) :
    BufOk (s.write_line l) := by
  have hmid : BufOk { s with buf := s.buf ++ [l], count := s.count + 1 } := by
    intro x hx
    rcases List.mem_append.mp hx with hx | hx
    · exact h x hx
    · have hxl : x = l := by simpa using hx
      rw [hxl]; exact hl
  unfold Writer.write_line
  dsimp only
  split
  · exact bufOk_rotate _ hmid
  · exact hmid

theorem bufOk_writeAll (ls : List Line) :
    ∀ s : Writer, BufOk s → (∀ l ∈ ls, l ≠ []) → BufOk (s.writeAll ls) := by
  induction ls with
  | nil => intro s h _; simpa [Writer.writeAll] using h
  | cons a tl ih =>
    intro s h hls
    have := ih (s.write_line a) (bufOk_write_line s a h (hls a (by simp)))
      (fun l hl => hls l (by simp [hl]))
    simpa [Writer.writeAll] using this

theorem bufOk_buf_eq_nil (buf : List Line) (h : ∀ l ∈ buf, l ≠ [])
    (hz : bufBytes buf = 0) : buf = [] := by
  cases buf with
  | nil => rfl
  | cons x xs =>
    exfalso
    have hx : x ≠ [] := h x (by simp)
    have : x.length = 0 := by
      have : x.length + bufBytes xs = 0 := by simpa [bufBytes] using hz
      omega
    exact hx (List.eq_nil_of_length_eq_zero this)

theorem close_buf_empty (s : Writer) (h : BufOk s) : s.close.buf = [] := by
  unfold Writer.close Writer.rotate
  split
  · exact bufOk_buf_eq_nil s.buf h (by assumption)
  · rfl

/-- The rotation-threshold invariant: the live buffer is strictly below the
threshold, and every partition already sealed (all of which were sealed by a
rotation fired inside `write_line`, since `close` has not run) is nonempty,
crossed the threshold only with its last line, and its content without that
last line was strictly below the threshold. -/
def ThresholdInv (s : Writer) : Prop :=
  (bufBytes s.buf : Int) < s.target_bytes ∧
  ∀ pc ∈ (partWrites s.effects).map Prod.snd,
    pc ≠ [] ∧ (bufBytes pc.dropLast : Int) < s.target_bytes ∧
      s.target_bytes ≤ (bufBytes pc : Int)

theorem thresholdInv_write_line (s : Writer) (l : Line) (h : ThresholdInv s) :
    ThresholdInv (s.write_line l) := by
  obtain ⟨h1, h2⟩ := h
  unfold Writer.write_line
  dsimp only
  split
  · rename_i hge
    unfold Writer.rotate
    split
    · rename_i hz
      exfalso
      have hpos : (0 : Int) < s.target_bytes := lt_of_le_of_lt (by positivity) h1
      rw [hz] at hge
      simp at hge
      omega
    · refine ⟨?_, ?_⟩
      · simpa [bufBytes] using lt_of_le_of_lt (by positivity) h1
      · intro pc hpc
        simp only [partWrites_append, partWrites_single, List.map_append,
          List.mem_append] at hpc
        rcases hpc with hpc | hpc
        · exact h2 pc hpc
        · have hpc2 : pc = s.buf ++ [l] := by simpa using hpc
          subst hpc2
          refine ⟨by simp, ?_, ?_⟩
          · rw [List.dropLast_concat]
            exact h1
          · exact hge
  · rename_i hlt
    refine ⟨?_, h2⟩
    show (bufBytes (s.buf ++ [l]) : Int) < s.target_bytes
    have hlt2 : ¬ (bufBytes (s.buf ++ [l]) : Int) ≥ s.target_bytes := hlt
    omega

theorem thresholdInv_writeAll (ls : List Line) :
    ∀ s : Writer, ThresholdInv s → ThresholdInv (s.writeAll ls) := by
  induction ls with
  | nil => intro s h; simpa [Writer.writeAll] using h
  | cons a tl ih =>
    intro s h
    simpa [Writer.writeAll] using ih (s.write_line a) (thresholdInv_write_line s a h)

theorem thresholdInv_init (d : String) (p : Int) (hp : 0 < p) :
    ThresholdInv (Writer.init d p) := by
  refine ⟨?_, ?_⟩
  · have : (0 : Int) < p * 1024 * 1024 := by positivity
    simpa [Writer.init, bufBytes] using this
  · intro pc hpc
    simp [Writer.init, partWrites] at hpc

/-- `write_line` and `close` never touch the directory-creation effects:
those come only from the constructor. -/
theorem mkdirEffects_rotate (s : Writer) :
    s.rotate.effects.filter FsEffect.isMkdir = s.effects.filter FsEffect.isMkdir := by
  unfold Writer.rotate
  split
  · rfl
  · simp [FsEffect.isMkdir]

theorem mkdirEffects_write_line (s : Writer) (l : Line) :
    (s.write_line l).effects.filter FsEffect.isMkdir =
      s.effects.filter FsEffect.isMkdir := by
  unfold Writer.write_line
  dsimp only
  split
  · simpa using mkdirEffects_rotate { s with buf := s.buf ++ [l], count := s.count + 1 }
  · rfl

theorem mkdirEffects_writeAll (ls : List Line) :
    ∀ s : Writer, (s.writeAll ls).effects.filter FsEffect.isMkdir =
      s.effects.filter FsEffect.isMkdir := by
  induction ls with
  | nil => intro s; rfl
  | cons a tl ih =>
    intro s
    calc ((s.write_line a).writeAll tl).effects.filter FsEffect.isMkdir
        = (s.write_line a).effects.filter FsEffect.isMkdir := ih (s.write_line a)
      _ = s.effects.filter FsEffect.isMkdir := mkdirEffects_write_line s a

theorem target_bytes_write_line (s : Writer) (l : Line) :
    (s.write_line l).target_bytes = s.target_bytes := by
  unfold Writer.write_line Writer.rotate
  dsimp only
  split
  · split <;> rfl
  · rfl

theorem target_bytes_writeAll (ls : List Line) :
    ∀ s : Writer, (s.writeAll ls).target_bytes = s.target_bytes := by
  induction ls with
  | nil => intro s; rfl
  | cons a tl ih =>
    intro s
    calc ((s.write_line a).writeAll tl).target_bytes
        = (s.write_line a).target_bytes := ih (s.write_line a)
      _ = s.target_bytes := target_bytes_write_line s a

/-! ### Claim theorems about the rotating writer -/

/-- C1: for every sequence of records appended through `write_line`
followed by `close()`, the sealed partitions carry contiguous indices
0, 1, … in write order, and decompressing each partition and
concatenating them in that order reproduces exactly the appended
newline-terminated lines, in append order, with no loss or
duplication. -/
theorem c1_writer_roundtrip (out_dir : String) (part_size_mb : Int)
    (ls : List Line) (hne : ∀ l ∈ ls, l ≠ []) :
    (partWrites (((Writer.init out_dir part_size_mb).writeAll ls).close).effects).map
        Prod.fst =
      List.range
        (partWrites (((Writer.init out_dir part_size_mb).writeAll ls).close).effects).length ∧
    ((partWrites (((Writer.init out_dir part_size_mb).writeAll ls).close).effects).map
        Prod.snd).flatten = ls := by
  have hinv : WriterInv ((Writer.init out_dir part_size_mb).writeAll ls) ls := by
    simpa using writerInv_writeAll ls (Writer.init out_dir part_size_mb) []
      (writerInv_init out_dir part_size_mb)
  have hinv2 : WriterInv (((Writer.init out_dir part_size_mb).writeAll ls).close) ls :=
    writerInv_rotate _ _ hinv
  have hbuf : (((Writer.init out_dir part_size_mb).writeAll ls).close).buf = [] := by
    refine close_buf_empty _ (bufOk_writeAll ls _ ?_ hne)
    intro l hl
    simp [Writer.init] at hl
  obtain ⟨h1, h2⟩ := hinv2
  constructor
  · rw [h1]
    congr 1
    have hlen := congrArg List.length h1
    simpa using hlen.symm
  · rw [hbuf] at h2
    simpa using h2

/-- C1 witness: two concrete records through a 1 MB-threshold writer. -/
theorem c1_witness :
    (∀ l ∈ ([[10], [20, 30]] : List Line), l ≠ []) ∧
    ((partWrites (((Writer.init "d" 1).writeAll [[10], [20, 30]]).close).effects).map
        Prod.fst =
      List.range
        (partWrites (((Writer.init "d" 1).writeAll [[10], [20, 30]]).close).effects).length ∧
    ((partWrites (((Writer.init "d" 1).writeAll [[10], [20, 30]]).close).effects).map
        Prod.snd).flatten = [[10], [20, 30]]) :=
  ⟨by decide, c1_writer_roundtrip "d" 1 [[10], [20, 30]] (by decide)⟩

/-- C4: on any append sequence (before `close`), every partition sealed by
a rotation triggered inside `write_line` crossed the threshold only with
the record whose append triggered the rotation: the partition is
nonempty, its lines without the last sum to strictly less than the
configured threshold, and with the last line the size is at least the
threshold. -/
theorem c4_rotation_threshold (out_dir : String) (part_size_mb : Int)
    (hp : 0 < part_size_mb) (ls : List Line) :
    ∀ pc ∈ (partWrites ((Writer.init out_dir part_size_mb).writeAll ls).effects).map
        Prod.snd,
      pc ≠ [] ∧ (bufBytes pc.dropLast : Int) < part_size_mb * 1024 * 1024 ∧
        part_size_mb * 1024 * 1024 ≤ (bufBytes pc : Int) := by
  have h := thresholdInv_writeAll ls (Writer.init out_dir part_size_mb)
    (thresholdInv_init out_dir part_size_mb hp)
  have ht := target_bytes_writeAll ls (Writer.init out_dir part_size_mb)
  intro pc hpc
  obtain ⟨-, h2⟩ := h
  have hgood := h2 pc hpc
  rwa [ht] at hgood

/-- C4 witness: a concrete append sequence under a positive threshold. -/
theorem c4_witness :
    (0 : Int) < 1 ∧
    ∀ pc ∈ (partWrites ((Writer.init "d" 1).writeAll [[1], [2]]).effects).map Prod.snd,
      pc ≠ [] ∧ (bufBytes pc.dropLast : Int) < 1 * 1024 * 1024 ∧
        1 * 1024 * 1024 ≤ (bufBytes pc : Int) :=
  ⟨by decide, c4_rotation_threshold "d" 1 (by decide) [[1], [2]]⟩

/-- C6 counterexample: constructing a writer that never receives a write
already performs the directory-creation effect — directory creation is
eager in `__init__`, not lazy on first write. -/
theorem c6_counterexample :
    (Writer.init "out" 32).count = 0 ∧
    (Writer.init "out" 32).effects = [FsEffect.mkdir "out"] ∧
    (Writer.init "out" 32).effects ≠ [] :=
  ⟨rfl, rfl, by simp [Writer.init]⟩

/-- C6 amended: the output directory is created eagerly and idempotently
(`os.makedirs(…, exist_ok=True)`) when the writer is constructed, and no
later operation (`write_line`, rotation, `close`) creates any directory:
over any whole run the effect log contains exactly the one constructor
`mkdir`. -/
theorem c6_amended_eager_mkdir (out_dir : String) (part_size_mb : Int)
    (ls : List Line) :
    (Writer.init out_dir part_size_mb).effects = [FsEffect.mkdir out_dir] ∧
    (((Writer.init out_dir part_size_mb).writeAll ls).close).effects.filter
        FsEffect.isMkdir = [FsEffect.mkdir out_dir] := by
  refine ⟨rfl, ?_⟩
  calc (((Writer.init out_dir part_size_mb).writeAll ls).close).effects.filter
        FsEffect.isMkdir
      = ((Writer.init out_dir part_size_mb).writeAll ls).effects.filter
          FsEffect.isMkdir := mkdirEffects_rotate _
    _ = (Writer.init out_dir part_size_mb).effects.filter FsEffect.isMkdir :=
        mkdirEffects_writeAll ls _
    _ = [FsEffect.mkdir out_dir] := by simp [Writer.init, FsEffect.isMkdir]

/-- C8: `close()` on an empty buffer is a complete no-op (no partition
file written, index, buffer, and every other field unchanged), and a
second consecutive `close()` never produces anything beyond the first. -/
theorem c8_close_idempotent (s : Writer) :
    (bufBytes s.buf = 0 → s.close = s) ∧ s.close.close = s.close := by
  have hnoop : ∀ t : Writer, bufBytes t.buf = 0 → t.close = t := by
    intro t ht
    unfold Writer.close Writer.rotate
    simp [ht]
  refine ⟨hnoop s, ?_⟩
  apply hnoop
  unfold Writer.close Writer.rotate
  split
  · assumption
  · rfl

/-- C8 witness: a freshly constructed writer has an empty buffer; closing
it changes nothing, and a double close equals a single close. -/
theorem c8_witness :
    bufBytes (Writer.init "d" 1).buf = 0 ∧
    (Writer.init "d" 1).close = Writer.init "d" 1 ∧
    (Writer.init "d" 1).close.close = (Writer.init "d" 1).close :=
  ⟨by decide, (c8_close_idempotent (Writer.init "d" 1)).1 (by decide),
    (c8_close_idempotent (Writer.init "d" 1)).2⟩

/-! ### Claims about the HTTP clients -/

theorem httpLoop_all_retryable (exhaust : Except HttpFailure Json) :
    ∀ outs : List HttpOutcome,
      (∀ o ∈ outs, ∃ st body, o = .response st body ∧ retryableStatus st = true) →
      httpLoop exhaust outs = exhaust := by
  intro outs
  induction outs with
  | nil => intro _; rfl
  | cons o rest ih =>
    intro h
    obtain ⟨st, body, rfl, hst⟩ := h o (by simp)
    have hrest := ih fun x hx => h x (by simp [hx])
    simp [httpLoop, hst, hrest]

/-- C2 counterexample: when every attempt of the yt_ingest.http_client
implementation receives HTTP 503 and nothing raises, the call raises
`RuntimeError` — it does not return an empty JSON object. -/
theorem c2_counterexample :
    http_get_json (fun _ => HttpOutcome.response 503 Json.null) =
      Except.error HttpFailure.runtimeUnexpected ∧
    http_get_json (fun _ => HttpOutcome.response 503 Json.null) ≠
      Except.ok (Json.obj []) := by
  have h : http_get_json (fun _ => HttpOutcome.response 503 Json.null) =
      Except.error HttpFailure.runtimeUnexpected := rfl
  exact ⟨h, by rw [h]; simp⟩

/-- C2 amended: when all `MAX_RETRIES` attempts receive a retryable status
(429/500/502/503/504) and no attempt raises a transport exception, the
yt_ingest.http_client implementation raises `RuntimeError`, while the
legacy src/main.py implementation returns the empty JSON object `{}`. -/
theorem c2_amended_exhausted_statuses (attempts : Nat → HttpOutcome)
    (h : ∀ i < MAX_RETRIES,
      ∃ st body, attempts i = .response st body ∧ retryableStatus st = true) :
    http_get_json attempts = Except.error HttpFailure.runtimeUnexpected ∧
    http_get_json_legacy attempts = Except.ok (Json.obj []) := by
  have hall : ∀ o ∈ (List.range MAX_RETRIES).map attempts,
      ∃ st body, o = .response st body ∧ retryableStatus st = true := by
    intro o ho
    simp only [List.mem_map, List.mem_range] at ho
    obtain ⟨i, hi, rfl⟩ := ho
    exact h i hi
  constructor
  · unfold http_get_json
    rw [if_neg (by decide)]
    exact httpLoop_all_retryable _ _ hall
  · exact httpLoop_all_retryable _ _ hall

/-- C2 witness: five straight 429 responses. -/
theorem c2_witness :
    http_get_json (fun _ => HttpOutcome.response 429 Json.null) =
      Except.error HttpFailure.runtimeUnexpected ∧
    http_get_json_legacy (fun _ => HttpOutcome.response 429 Json.null) =
      Except.ok (Json.obj []) :=
  c2_amended_exhausted_statuses (fun _ => HttpOutcome.response 429 Json.null)
    (fun _ _ => ⟨429, Json.null, rfl, rfl⟩)

/-! ### Claims about the rate limiter -/

/-- C9: for every `rps ≤ 0`, the constructed limiter is exactly the one
constructed with `rps = 1`: the stored budget and the semaphore's permit
pool size are both `max(1, rps) = 1`, so the pool is never empty and
`acquire()` cannot block forever on a zero-permit pool. -/
theorem c9_rate_limiter_clamps (rps : Int) (h : rps ≤ 0) :
    RateLimiter.init rps = RateLimiter.init 1 ∧
    (RateLimiter.init rps).rps = 1 ∧
    (RateLimiter.init rps).sem_permits = 1 ∧
    ((RateLimiter.init rps).resetPool = RateLimiter.init rps) := by
  have h1 : max 1 rps = 1 := max_eq_left (by omega)
  refine ⟨?_, ?_, ?_, ?_⟩ <;>
    simp [RateLimiter.init, RateLimiter.resetPool, h1]

/-- C9 witness: a limiter constructed with `rps = -3`. -/
theorem c9_witness :
    (-3 : Int) ≤ 0 ∧
    (RateLimiter.init (-3) = RateLimiter.init 1 ∧
      (RateLimiter.init (-3)).rps = 1 ∧
      (RateLimiter.init (-3)).sem_permits = 1 ∧
      ((RateLimiter.init (-3)).resetPool = RateLimiter.init (-3))) :=
  ⟨by decide, c9_rate_limiter_clamps (-3) (by decide)⟩

/-! ### Claims about search_list_videos_of_channel -/

/-- C10: for every `max_videos ≤ 0`, search_list_videos_of_channel
returns the empty list and issues zero HTTP requests: the entry condition
`len(video_ids) < max_videos` of the collection loop fails at once. -/
theorem c10_nonpositive_max_videos (max_videos : Int) (h : max_videos ≤ 0)
    (pages : List SearchPage) :
    search_list_videos_of_channel max_videos pages = ([], 0) := by
  unfold search_list_videos_of_channel
  cases pages with
  | nil => rfl
  | cons p rest =>
    simp only [searchLoop]
    split
    · rename_i hlt
      exfalso
      simp only [List.length_nil, Int.natCast_zero] at hlt
      omega
    · rfl

/-- C10 witness: `max_videos = -1` against a server that would have a
page to offer. -/
theorem c10_witness :
    (-1 : Int) ≤ 0 ∧
    search_list_videos_of_channel (-1)
      [⟨[⟨some "youtube#video", some "a"⟩], none⟩] = ([], 0) :=
  ⟨by decide, c10_nonpositive_max_videos (-1) (by decide) _⟩

/-- The server-side guarantee the `maxResults` parameter asks for: each
page delivered while the loop is still collecting (current count `cnt`
below `max_videos`) contributes at most `min(50, max_videos - cnt)` valid
video ids — the page honours the requested
`maxResults = min(50, max_videos - len(video_ids))`. -/
def pagesBounded (max_videos : Int) : Nat → List SearchPage → Bool
  | _, [] => true
  | cnt, p :: rest =>
    if (cnt : Int) < max_videos then
      decide ((pageVideoIds p.items).length ≤ min 50 (max_videos - cnt).toNat) &&
        pagesBounded max_videos (cnt + (pageVideoIds p.items).length) rest
    else true

theorem searchLoop_order (max_videos : Int) :
    ∀ (pages : List SearchPage) (acc : List String),
      (searchLoop max_videos pages acc).1 =
        acc ++ (pages.take (searchLoop max_videos pages acc).2).flatMap
          (fun p => pageVideoIds p.items) := by
  intro pages
  induction pages with
  | nil => intro acc; simp [searchLoop]
  | cons p rest ih =>
    intro acc
    simp only [searchLoop]
    split
    · split
      · rw [List.take_succ_cons, List.flatMap_cons, ← List.append_assoc]
        exact ih (acc ++ pageVideoIds p.items)
      · simp
    · simp

theorem searchLoop_capped (max_videos : Int) :
    ∀ (pages : List SearchPage) (acc : List String),
      pagesBounded max_videos acc.length pages = true →
      (searchLoop max_videos pages acc).1.length ≤
        max max_videos.toNat acc.length := by
  intro pages
  induction pages with
  | nil =>
    intro acc _
    simp [searchLoop]
  | cons p rest ih =>
    intro acc h
    simp only [searchLoop]
    split
    · rename_i hlt
      rw [pagesBounded, if_pos hlt, Bool.and_eq_true] at h
      obtain ⟨hb1, hb2⟩ := h
      have hb1n : (pageVideoIds p.items).length ≤
          min 50 (max_videos - acc.length).toNat := of_decide_eq_true hb1
      have hacc2 : (acc ++ pageVideoIds p.items).length ≤ max_videos.toNat := by
        rw [List.length_append]
        omega
      split
      · have hrec := ih (acc ++ pageVideoIds p.items)
          (by rwa [← List.length_append] at hb2)
        calc (searchLoop max_videos rest (acc ++ pageVideoIds p.items)).1.length
            ≤ max max_videos.toNat (acc ++ pageVideoIds p.items).length := hrec
          _ ≤ max max_videos.toNat acc.length := by omega
      · calc (acc ++ pageVideoIds p.items).length
            ≤ max_videos.toNat := hacc2
          _ ≤ max max_videos.toNat acc.length := le_max_left _ _
    · exact le_max_right _ _

/-- C5 counterexample: `max_videos = 1` against a single page whose
`items` carry two valid videos — the code appends every valid item of the
page, so the result has 2 entries and is not capped at `max_videos`. -/
theorem c5_counterexample :
    (search_list_videos_of_channel 1
      [⟨[⟨some "youtube#video", some "a"⟩, ⟨some "youtube#video", some "b"⟩],
        none⟩]).1 = ["a", "b"] ∧
    ¬ ((search_list_videos_of_channel 1
      [⟨[⟨some "youtube#video", some "a"⟩, ⟨some "youtube#video", some "b"⟩],
        none⟩]).1.length ≤ 1) := by
  constructor
  · rfl
  · decide

/-- C5 amended: the returned id sequence always preserves the
server-supplied item order (it is the in-order concatenation of the valid
video ids of the consumed pages); it is NOT truncated to `max_videos` in
general, but whenever every consumed page honours the requested
`maxResults = min(50, max_videos - collected)` bound, the result has at
most `max_videos` entries. -/
theorem c5_amended_order_and_conditional_cap (max_videos : Int)
    (pages : List SearchPage) :
    (search_list_videos_of_channel max_videos pages).1 =
      (pages.take (search_list_videos_of_channel max_videos pages).2).flatMap
        (fun p => pageVideoIds p.items) ∧
    (pagesBounded max_videos 0 pages = true →
      (search_list_videos_of_channel max_videos pages).1.length ≤
        max_videos.toNat) := by
  constructor
  · simpa [search_list_videos_of_channel] using
      searchLoop_order max_videos pages []
  · intro hb
    have := searchLoop_capped max_videos pages [] (by simpa using hb)
    simpa [search_list_videos_of_channel] using this

/-- C5 witness: two well-behaved pages of one valid id each under
`max_videos = 2`. -/
theorem c5_witness :
    pagesBounded 2 0
      [⟨[⟨some "youtube#video", some "a"⟩], some "tok"⟩,
       ⟨[⟨some "youtube#video", some "b"⟩], none⟩] = true ∧
    (search_list_videos_of_channel 2
      [⟨[⟨some "youtube#video", some "a"⟩], some "tok"⟩,
       ⟨[⟨some "youtube#video", some "b"⟩], none⟩]).1 =
      (([⟨[⟨some "youtube#video", some "a"⟩], some "tok"⟩,
         ⟨[⟨some "youtube#video", some "b"⟩], none⟩] : List SearchPage).take
        (search_list_videos_of_channel 2
          [⟨[⟨some "youtube#video", some "a"⟩], some "tok"⟩,
           ⟨[⟨some "youtube#video", some "b"⟩], none⟩]).2).flatMap
        (fun p => pageVideoIds p.items) ∧
    (search_list_videos_of_channel 2
      [⟨[⟨some "youtube#video", some "a"⟩], some "tok"⟩,
       ⟨[⟨some "youtube#video", some "b"⟩], none⟩]).1.length ≤ (2 : Int).toNat :=
  ⟨by decide,
    (c5_amended_order_and_conditional_cap 2
      [⟨[⟨some "youtube#video", some "a"⟩], some "tok"⟩,
       ⟨[⟨some "youtube#video", some "b"⟩], none⟩]).1,
    (c5_amended_order_and_conditional_cap 2
      [⟨[⟨some "youtube#video", some "a"⟩], some "tok"⟩,
       ⟨[⟨some "youtube#video", some "b"⟩], none⟩]).2 (by decide)⟩

/-! ### Claims about videos_list_details -/

theorem chunksOf_flatten (n : Nat) : (l : List α) → (chunksOf n l).flatten = l
  | [] => by simp [chunksOf]
  | x :: xs => by
    rw [chunksOf, List.flatten_cons, chunksOf_flatten n (xs.drop (n - 1))]
    simp [List.take_append_drop]
termination_by l => l.length
decreasing_by simp [List.length_drop]; omega

theorem chunksOf_bounded (n : Nat) (hn : 0 < n) :
    (l : List α) → ∀ c ∈ chunksOf n l, c ≠ [] ∧ c.length ≤ n
  | [] => by simp [chunksOf]
  | x :: xs => by
    intro c hc
    rw [chunksOf] at hc
    rcases List.mem_cons.mp hc with rfl | hc
    · refine ⟨by simp, ?_⟩
      have := List.length_take_le (n - 1) xs
      simp only [List.length_cons]
      omega
    · exact chunksOf_bounded n hn (xs.drop (n - 1)) c hc
termination_by l => l.length
decreasing_by simp [List.length_drop]; omega

theorem chunksOf_count : (l : List α) →
    (chunksOf BATCH_SIZE_IDS l).length = (l.length + (BATCH_SIZE_IDS - 1)) / BATCH_SIZE_IDS
  | [] => by simp [chunksOf, BATCH_SIZE_IDS]
  | x :: xs => by
    rw [chunksOf, List.length_cons, chunksOf_count (xs.drop (BATCH_SIZE_IDS - 1))]
    have hd : (xs.drop (BATCH_SIZE_IDS - 1)).length = xs.length - (BATCH_SIZE_IDS - 1) :=
      List.length_drop _ _
    rw [hd]
    simp only [BATCH_SIZE_IDS, List.length_cons]
    omega
termination_by l => l.length
decreasing_by simp [List.length_drop, BATCH_SIZE_IDS]; omega

/-- C7: videos_list_details splits the input id list into consecutive
chunks of at most `BATCH_SIZE_IDS = 50` ids, issues exactly one GET per
chunk (`⌈len/50⌉` requests, zero for an empty input) whose `id`
parameter comma-joins the chunk, and returns the concatenation of the
per-chunk item lists in chunk order. -/
theorem c7_videos_list_details (server : List String → List α)
    (video_ids : List String) :
    (videos_list_details server video_ids).1 =
      (chunksOf BATCH_SIZE_IDS video_ids).map (fun c => String.intercalate "," c) ∧
    (videos_list_details server video_ids).2 =
      (chunksOf BATCH_SIZE_IDS video_ids).flatMap server ∧
    (chunksOf BATCH_SIZE_IDS video_ids).flatten = video_ids ∧
    (∀ c ∈ chunksOf BATCH_SIZE_IDS video_ids, c ≠ [] ∧ c.length ≤ BATCH_SIZE_IDS) ∧
    (videos_list_details server video_ids).1.length =
      (video_ids.length + (BATCH_SIZE_IDS - 1)) / BATCH_SIZE_IDS ∧
    videos_list_details server [] = (([] : List String), ([] : List α)) := by
  have h12 : (videos_list_details server video_ids).1 =
        (chunksOf BATCH_SIZE_IDS video_ids).map (fun c => String.intercalate "," c) ∧
      (videos_list_details server video_ids).2 =
        (chunksOf BATCH_SIZE_IDS video_ids).flatMap server := by
    unfold videos_list_details
    split
    · rename_i he
      subst he
      simp [chunksOf]
    · exact ⟨rfl, rfl⟩
  refine ⟨h12.1, h12.2, chunksOf_flatten _ video_ids,
    chunksOf_bounded _ (by simp [BATCH_SIZE_IDS]) video_ids, ?_, rfl⟩
  rw [h12.1, List.length_map, chunksOf_count video_ids]

/-! ### Claims about the pipeline audit step -/

/-- Bool discriminator for `_type == "youtube_video"` records. -/
def isVideoRec : VideoRecType → Bool
  | .youtube_video => true
  | .not_found => false

/-- Bool discriminator for `_type == "not_found"` records. -/
def isNotFoundRec : VideoRecType → Bool
  | .youtube_video => false
  | .not_found => true

theorem length_filter_contains (l d : List String) (hl : l.Nodup) (hd : d.Nodup)
    (hsub : ∀ v ∈ d, v ∈ l) :
    (l.filter (fun v => d.contains v)).length = d.length := by
  have hnd : (l.filter (fun v => d.contains v)).Nodup := hl.filter _
  have hset : (l.filter (fun v => d.contains v)).toFinset = d.toFinset := by
    ext v
    simp only [List.mem_toFinset, List.mem_filter]
    constructor
    · rintro ⟨-, hv⟩
      simpa using hv
    · intro hv
      exact ⟨hsub v hv, by simpa using hv⟩
  calc (l.filter (fun v => d.contains v)).length
      = (l.filter (fun v => d.contains v)).toFinset.card :=
        (List.toFinset_card_of_nodup hnd).symm
    _ = d.toFinset.card := by rw [hset]
    _ = d.length := List.toFinset_card_of_nodup hd

theorem length_filter_not_split (l : List String) (p : String → Bool) :
    (l.filter p).length + (l.filter (fun v => !p v)).length = l.length := by
  induction l with
  | nil => rfl
  | cons x xs ih =>
    cases h : p x <;> simp [List.filter_cons, h] <;> omega

/-- C3: if the requested id list has `M` distinct ids and the detail fetch
returns items whose ids form a strict subset of size `R < M`, then the
video stream receives exactly `R` `youtube_video` records and exactly
`M − R` `not_found` records, the two groups' videoId sets are disjoint,
and together they are exactly the requested id set. -/
theorem c3_audit_completeness (video_ids detail_ids : List String)
    (hM : video_ids.Nodup) (hR : detail_ids.Nodup)
    (hsub : ∀ v ∈ detail_ids, v ∈ video_ids)
    (hstrict : detail_ids.length < video_ids.length) :
    ((videoStream video_ids detail_ids).filter
        (fun r => isVideoRec r.1)).length = detail_ids.length ∧
    ((videoStream video_ids detail_ids).filter
        (fun r => isNotFoundRec r.1)).length =
      video_ids.length - detail_ids.length ∧
    (∀ v, ¬((VideoRecType.youtube_video, v) ∈ videoStream video_ids detail_ids ∧
        (VideoRecType.not_found, v) ∈ videoStream video_ids detail_ids)) ∧
    (∀ v, v ∈ video_ids ↔
      ((VideoRecType.youtube_video, v) ∈ videoStream video_ids detail_ids ∨
        (VideoRecType.not_found, v) ∈ videoStream video_ids detail_ids)) := by
  have hyv : ∀ v, (VideoRecType.youtube_video, v) ∈
      videoStream video_ids detail_ids ↔ v ∈ detail_ids := by
    intro v
    simp [videoStream]
  have hnf : ∀ v, (VideoRecType.not_found, v) ∈
      videoStream video_ids detail_ids ↔ v ∈ video_ids ∧ v ∉ detail_ids := by
    intro v
    simp [videoStream, List.mem_filter]
  refine ⟨?_, ?_, ?_, ?_⟩
  · simp [videoStream, List.filter_append, List.filter_map, Function.comp,
      isVideoRec]
  · have hsplit : (video_ids.filter (fun v => detail_ids.contains v)).length +
        (video_ids.filter (fun v => !detail_ids.contains v)).length =
          video_ids.length :=
      length_filter_not_split video_ids (fun v => detail_ids.contains v)
    have hmem := length_filter_contains video_ids detail_ids hM hR hsub
    have hred : ((videoStream video_ids detail_ids).filter
        (fun r => isNotFoundRec r.1)).length =
        (video_ids.filter (fun v => !detail_ids.contains v)).length := by
      rw [videoStream, List.filter_append, List.length_append]
      have h1 : (detail_ids.map (fun v => (VideoRecType.youtube_video, v))).filter
          (fun r => isNotFoundRec r.1) = [] := by
        rw [List.filter_map]
        have hcomp : ((fun r : VideoRecType × String => isNotFoundRec r.1) ∘
            (fun v => (VideoRecType.youtube_video, v))) =
              fun _ : String => false := rfl
        rw [hcomp]
        simp
      have h2 : ((video_ids.filter (fun v => !detail_ids.contains v)).map
          (fun v => (VideoRecType.not_found, v))).filter
          (fun r => isNotFoundRec r.1) =
          (video_ids.filter (fun v => !detail_ids.contains v)).map
            (fun v => (VideoRecType.not_found, v)) := by
        rw [List.filter_map]
        have hcomp : ((fun r : VideoRecType × String => isNotFoundRec r.1) ∘
            (fun v => (VideoRecType.not_found, v))) =
              fun _ : String => true := rfl
        rw [hcomp]
        simp
      rw [h1, h2, List.length_map]
      simp
    rw [hred]
    omega
  · intro v hv
    exact ((hnf v).mp hv.2).2 ((hyv v).mp hv.1)
  · intro v
    constructor
    · intro hv
      by_cases hd : v ∈ detail_ids
      · exact Or.inl ((hyv v).mpr hd)
      · exact Or.inr ((hnf v).mpr ⟨hv, hd⟩)
    · rintro (h | h)
      · exact hsub v ((hyv v).mp h)
      · exact ((hnf v).mp h).1

/-- C3 witness: three requested ids, one returned. -/
theorem c3_witness :
    ((videoStream ["a", "b", "c"] ["b"]).filter
        (fun r => isVideoRec r.1)).length = (["b"] : List String).length ∧
    ((videoStream ["a", "b", "c"] ["b"]).filter
        (fun r => isNotFoundRec r.1)).length =
      (["a", "b", "c"] : List String).length - (["b"] : List String).length ∧
    (∀ v, ¬((VideoRecType.youtube_video, v) ∈ videoStream ["a", "b", "c"] ["b"] ∧
        (VideoRecType.not_found, v) ∈ videoStream ["a", "b", "c"] ["b"])) ∧
    (∀ v, v ∈ (["a", "b", "c"] : List String) ↔
      ((VideoRecType.youtube_video, v) ∈ videoStream ["a", "b", "c"] ["b"] ∨
        (VideoRecType.not_found, v) ∈ videoStream ["a", "b", "c"] ["b"])) :=
  c3_audit_completeness ["a", "b", "c"] ["b"] (by decide) (by decide)
    (by decide) (by decide)

end YtIngest
